import Mathlib

/-
Verification of the streaming response consumer of the PatGPT2 frontend
(src/frontend/src/components/ChatInterface.jsx, function handleSubmit).

The JavaScript source is shallowly embedded: byte chunks are lists of Nat
(byte values), JavaScript strings are Lean strings, the React state updates
(setMessages, setLoading, setInput) become explicit state passing, and the
library calls the code makes (TextDecoder.decode, String.prototype.split,
String.prototype.startsWith, String.prototype.slice, String.prototype.trim,
JSON.parse) are modelled by executable Lean functions on the value shapes
this program actually exercises.
-/

set_option maxRecDepth 4000

namespace PatGPT

/-- A source reference as rendered by MessageList: an object with a source
string field. -/
structure SourceRef where
  source : String
deriving DecidableEq, Repr

/-- A chat message: role, content and sources, as built by handleSubmit.
The catch branch of handleSubmit builds a message without a sources field;
it is modelled with an empty sources list, which MessageList renders
identically (both fail the nonempty check before rendering sources). -/
structure Message where
  role : String
  content : String
  sources : List SourceRef
deriving DecidableEq, Repr

/-- The replacement character U+FFFD emitted by TextDecoder for ill-formed
byte sequences. -/
def replChar : Char := Char.ofNat 0xFFFD

/-- Whether a byte is a UTF-8 continuation byte, 0x80 to 0xBF. -/
def isContByte (b : Nat) : Bool := 0x80 ≤ b && b < 0xC0

/-- Model of the WHATWG UTF-8 decode algorithm used by TextDecoder in its
default non-fatal mode, on a complete input (the code calls decode without
the stream option, so every call decodes its argument as a whole and an
incomplete trailing sequence becomes replacement characters).  The first
argument is fuel; every step consumes at least one byte, so fuel equal to
the byte count suffices. -/
def decodeUtf8Bytes : Nat → List Nat → List Char
  | 0, _ => []
  | _, [] => []
  | fuel + 1, b :: rest =>
    if b < 0x80 then
      Char.ofNat b :: decodeUtf8Bytes fuel rest
    else if b < 0xC2 then
      -- stray continuation byte, or the invalid leads 0xC0 and 0xC1
      replChar :: decodeUtf8Bytes fuel rest
    else if b < 0xE0 then
      match rest with
      | [] => [replChar]
      | b2 :: rest2 =>
        if isContByte b2 then
          Char.ofNat ((b - 0xC0) * 0x40 + (b2 - 0x80)) :: decodeUtf8Bytes fuel rest2
        else
          replChar :: decodeUtf8Bytes fuel rest
    else if b < 0xF0 then
      -- three-byte lead; 0xE0 tightens the lower bound of the second byte
      -- and 0xED tightens its upper bound, excluding overlongs and surrogates
      let lo := if b = 0xE0 then 0xA0 else 0x80
      let hi := if b = 0xED then 0x9F else 0xBF
      match rest with
      | [] => [replChar]
      | b2 :: rest2 =>
        if lo ≤ b2 && b2 ≤ hi then
          match rest2 with
          | [] => [replChar]
          | b3 :: rest3 =>
            if isContByte b3 then
              Char.ofNat ((b - 0xE0) * 0x1000 + (b2 - 0x80) * 0x40 + (b3 - 0x80))
                :: decodeUtf8Bytes fuel rest3
            else
              replChar :: decodeUtf8Bytes fuel rest2
        else
          replChar :: decodeUtf8Bytes fuel rest
    else if b < 0xF5 then
      -- four-byte lead; 0xF0 and 0xF4 tighten the second byte bounds,
      -- keeping code points between 0x10000 and 0x10FFFF
      let lo := if b = 0xF0 then 0x90 else 0x80
      let hi := if b = 0xF4 then 0x8F else 0xBF
      match rest with
      | [] => [replChar]
      | b2 :: rest2 =>
        if lo ≤ b2 && b2 ≤ hi then
          match rest2 with
          | [] => [replChar]
          | b3 :: rest3 =>
            if isContByte b3 then
              match rest3 with
              | [] => [replChar]
              | b4 :: rest4 =>
                if isContByte b4 then
                  Char.ofNat ((b - 0xF0) * 0x40000 + (b2 - 0x80) * 0x1000
                      + (b3 - 0x80) * 0x40 + (b4 - 0x80))
                    :: decodeUtf8Bytes fuel rest4
                else
                  replChar :: decodeUtf8Bytes fuel rest3
            else
              replChar :: decodeUtf8Bytes fuel rest2
        else
          replChar :: decodeUtf8Bytes fuel rest
    else
      replChar :: decodeUtf8Bytes fuel rest

/-- Model of decoder.decode(value) as called on line 41 of
ChatInterface.jsx: a TextDecoder decode call without the stream option,
which decodes the given bytes completely and keeps no state between calls. -/
def textDecode (bytes : List Nat) : String :=
  String.mk (decodeUtf8Bytes bytes.length bytes)

/-- The UTF-8 bytes of an ASCII string, used to build concrete chunks. -/
def asciiBytes (s : String) : List Nat :=
  s.toList.map Char.toNat

/-- The UTF-8 encoding of one character, used to state which byte
sequences a well-formed producer sends for a character. -/
def utf8EncodeChar (c : Char) : List Nat :=
  let n := c.toNat
  if n < 0x80 then [n]
  else if n < 0x800 then
    [0xC0 + n / 0x40, 0x80 + n % 0x40]
  else if n < 0x10000 then
    [0xE0 + n / 0x1000, 0x80 + n / 0x40 % 0x40, 0x80 + n % 0x40]
  else
    [0xF0 + n / 0x40000, 0x80 + n / 0x1000 % 0x40, 0x80 + n / 0x40 % 0x40, 0x80 + n % 0x40]

/-- The UTF-8 encoding of a character list, in order. -/
def utf8EncodeList : List Char → List Nat
  | [] => []
  | c :: cs => utf8EncodeChar c ++ utf8EncodeList cs

/-- The UTF-8 encoding of a string. -/
def utf8Encode (s : String) : List Nat :=
  utf8EncodeList s.toList

/-- Helper for splitLines, accumulating the current line in reverse. -/
def splitLinesAux : List Char → List Char → List String
  | [], acc => [String.mk acc.reverse]
  | c :: cs, acc =>
    if c = '\n' then String.mk acc.reverse :: splitLinesAux cs []
    else splitLinesAux cs (c :: acc)

/-- Model of chunk.split on the newline character (line 42 of
ChatInterface.jsx): every maximal newline-free segment in order, including
the possibly empty segment after the last newline. -/
def splitLines (s : String) : List String :=
  splitLinesAux s.toList []

/-- Model of line.startsWith applied to the given pattern. -/
def strStartsWith (s pat : String) : Bool :=
  pat.toList.isPrefixOf s.toList

/-- Model of line.slice with one argument: the characters from the given
index on. -/
def strSliceFrom (s : String) (n : Nat) : String :=
  String.mk (s.toList.drop n)

/-- Whether a character is whitespace for the JavaScript trim method, on
the character set this client can produce. -/
def isJsSpace (c : Char) : Bool :=
  c = ' ' || c = '\t' || c = '\n' || c = '\r' || c = '\x0b' || c = '\x0c'

/-- Model of input.trim as used in the submission guard on line 12 of
ChatInterface.jsx. -/
def jsTrim (s : String) : String :=
  String.mk (((s.toList.dropWhile isJsSpace).reverse.dropWhile isJsSpace).reverse)

/-- A JSON value, restricted to the shapes the streaming protocol carries:
strings, arrays and objects.  A payload using other JSON forms is outside
this model. -/
inductive JsonValue where
  | str : String → JsonValue
  | arr : List JsonValue → JsonValue
  | obj : List (String × JsonValue) → JsonValue
deriving Repr

/-- Skip JSON whitespace. -/
def skipWs : List Char → List Char
  | [] => []
  | c :: cs =>
    if c = ' ' || c = '\t' || c = '\n' || c = '\r' then skipWs cs else c :: cs

/-- Parse the body of a JSON string literal after its opening quote,
accumulating decoded characters in reverse; returns the decoded string and
the input after the closing quote, or none on a malformed or unterminated
literal.  Escapes are the ones the protocol can produce. -/
def parseStrBody : Nat → List Char → List Char → Option (String × List Char)
  | 0, _, _ => none
  | _, _, [] => none
  | fuel + 1, acc, c :: cs =>
    if c = '"' then some (String.mk acc.reverse, cs)
    else if c = '\\' then
      match cs with
      | [] => none
      | e :: cs2 =>
        if e = '"' then parseStrBody fuel ('"' :: acc) cs2
        else if e = '\\' then parseStrBody fuel ('\\' :: acc) cs2
        else if e = '/' then parseStrBody fuel ('/' :: acc) cs2
        else if e = 'n' then parseStrBody fuel ('\n' :: acc) cs2
        else if e = 't' then parseStrBody fuel ('\t' :: acc) cs2
        else if e = 'r' then parseStrBody fuel ('\r' :: acc) cs2
        else none
    else parseStrBody fuel (c :: acc) cs

mutual

/-- Parse one JSON value from the input; returns the value and the rest of
the input.  Fuel bounds the recursion depth; each concrete witness below
supplies fuel no smaller than the input length, which suffices because each
recursive call consumes input. -/
def parseJsonValue : Nat → List Char → Option (JsonValue × List Char)
  | 0, _ => none
  | fuel + 1, input =>
    match skipWs input with
    | [] => none
    | c :: cs =>
      if c = '"' then
        match parseStrBody (fuel + 1) [] cs with
        | some (s, rest) => some (JsonValue.str s, rest)
        | none => none
      else if c = '[' then
        match skipWs cs with
        | ']' :: rest => some (JsonValue.arr [], rest)
        | cs2 => parseArrItems fuel cs2 []
      else if c = '\x7b' then
        match skipWs cs with
        | '\x7d' :: rest => some (JsonValue.obj [], rest)
        | cs2 => parseObjItems fuel cs2 []
      else none

/-- Parse the comma-separated items of a nonempty JSON array, up to and
including the closing bracket. -/
def parseArrItems : Nat → List Char → List JsonValue → Option (JsonValue × List Char)
  | 0, _, _ => none
  | fuel + 1, input, acc =>
    match parseJsonValue fuel input with
    | none => none
    | some (v, rest) =>
      match skipWs rest with
      | ']' :: rest2 => some (JsonValue.arr (acc ++ [v]), rest2)
      | ',' :: rest2 => parseArrItems fuel rest2 (acc ++ [v])
      | _ => none

/-- Parse the comma-separated fields of a nonempty JSON object, up to and
including the closing brace. -/
def parseObjItems : Nat → List Char → List (String × JsonValue) → Option (JsonValue × List Char)
  | 0, _, _ => none
  | fuel + 1, input, acc =>
    match skipWs input with
    | '"' :: cs =>
      match parseStrBody fuel [] cs with
      | none => none
      | some (k, rest) =>
        match skipWs rest with
        | ':' :: rest2 =>
          match parseJsonValue fuel rest2 with
          | none => none
          | some (v, rest3) =>
            match skipWs rest3 with
            | '\x7d' :: rest4 => some (JsonValue.obj (acc ++ [(k, v)]), rest4)
            | ',' :: rest4 => parseObjItems fuel rest4 (acc ++ [(k, v)])
            | _ => none
        | _ => none
    | _ => none

end

/-- Model of JSON.parse restricted to the protocol value shapes: the whole
input must be one JSON value with only whitespace around it; anything else
is a parse error, modelling the exception the code catches. -/
def parseJson (s : String) : Option JsonValue :=
  match parseJsonValue (s.toList.length + 1) s.toList with
  | some (v, rest) => if skipWs rest = [] then some v else none
  | none => none

/-- Last-write-wins field lookup on a JSON object field list, matching how
JSON.parse builds a JavaScript object when keys repeat. -/
def getField (fields : List (String × JsonValue)) (key : String) : Option JsonValue :=
  fields.foldl (fun acc kv => if kv.1 = key then some kv.2 else acc) (none : Option JsonValue)

mutual

/-- JavaScript string coercion of a JSON value, as in string concatenation
and template literals: strings stay themselves, objects become the object
placeholder text, arrays become their comma-joined elements. -/
def jsToString : JsonValue → String
  | JsonValue.str s => s
  | JsonValue.obj _ => "[object Object]"
  | JsonValue.arr xs => jsToStringList xs

/-- Comma-joined JavaScript string coercion of a list of JSON values. -/
def jsToStringList : List JsonValue → String
  | [] => ""
  | [x] => jsToString x
  | x :: y :: xs => jsToString x ++ "," ++ jsToStringList (y :: xs)

end

/-- JavaScript string coercion of a possibly absent object field: an absent
field is undefined and coerces to the undefined text. -/
def jsFieldString : Option JsonValue → String
  | none => "undefined"
  | some v => jsToString v

/-- Conversion of the sources payload field to the source list the renderer
reads: an array of objects, each contributing its source string field.
Items of another shape contribute an empty source label; a payload whose
sources field is not an array contributes an empty list.  (The code stores
the raw field; this typed model commits at this point to the shape the
renderer consumes.) -/
def toSourceRefs : Option JsonValue → List SourceRef
  | some (JsonValue.arr items) =>
    items.map fun v =>
      match v with
      | JsonValue.obj fields =>
        match getField fields "source" with
        | some (JsonValue.str s) => { source := s }
        | _ => { source := "" }
      | _ => { source := "" }
  | _ => []

/-- A typed stream event, the outcome of the discriminator dispatch on
lines 49 to 65 of ChatInterface.jsx. -/
inductive StreamEvent where
  | token : String → StreamEvent
  | sources : List SourceRef → StreamEvent
  | error : String → StreamEvent
deriving DecidableEq, Repr

/-- Dispatch on the parsed payload exactly as the if chain on data.type
does: a token event carries the content field, a sources event the
converted sources field, an error event the error field; any other
discriminator, and any non-object payload, falls through with no event. -/
def eventOfJson : JsonValue → Option StreamEvent
  | JsonValue.obj fields =>
    match getField fields "type" with
    | some (JsonValue.str "token") => some (StreamEvent.token (jsFieldString (getField fields "content")))
    | some (JsonValue.str "sources") => some (StreamEvent.sources (toSourceRefs (getField fields "sources")))
    | some (JsonValue.str "error") => some (StreamEvent.error (jsFieldString (getField fields "error")))
    | _ => none
  | _ => none

/-- Model of lines 45 to 47 of ChatInterface.jsx for one decoded line: a
line is recognized only when line.startsWith finds the data prefix at the
start; the slice after the six prefix characters is then fed to JSON.parse,
a parse failure being the caught exception, and the result dispatched on
its discriminator.  none means the line produces no event. -/
def parseEvent (line : String) : Option StreamEvent :=
  if strStartsWith line "data: " then
    match parseJson (strSliceFrom line 6) with
    | some v => eventOfJson v
    | none => none
  else none

/-- The state handleSubmit threads through the read loop: the published
messages list (the React state that MessageList renders, changed only by
setMessages calls) and the local assistantMessage object. -/
structure StreamState where
  rendered : List Message
  assistantMessage : Message
deriving DecidableEq, Repr

/-- Model of the setMessages functional update used by the token and error
branches: copy the list and overwrite its last position with the given
message. -/
def replaceLast (msgs : List Message) (m : Message) : List Message :=
  msgs.dropLast ++ [m]

/-- Application of one parsed event, following the three branches of the
dispatch: a token appends to the local message content and publishes a
snapshot, a sources event overwrites the local sources list and publishes
nothing, an error event overwrites the local content with the error text
and publishes a snapshot. -/
def applyEvent (st : StreamState) (ev : StreamEvent) : StreamState :=
  match ev with
  | StreamEvent.token c =>
    let m := { st.assistantMessage with content := st.assistantMessage.content ++ c }
    { rendered := replaceLast st.rendered m, assistantMessage := m }
  | StreamEvent.sources items =>
    { st with assistantMessage := { st.assistantMessage with sources := items } }
  | StreamEvent.error msg =>
    let m := { st.assistantMessage with content := "Error: " ++ msg }
    { rendered := replaceLast st.rendered m, assistantMessage := m }

/-- Processing of one decoded line inside the for loop: a line with no
event leaves the state unchanged. -/
def processLine (st : StreamState) (line : String) : StreamState :=
  match parseEvent line with
  | some ev => applyEvent st ev
  | none => st

/-- Processing of one delivered byte chunk: decode it with a fresh
complete-input decode call, split on newlines, and fold every resulting
segment through processLine.  The segment after the last newline is
processed immediately like any other; nothing is carried to the next
chunk. -/
def processChunk (st : StreamState) (bytes : List Nat) : StreamState :=
  (splitLines (textDecode bytes)).foldl processLine st

/-- Processing of the whole sequence of delivered chunks in arrival
order. -/
def processChunks (st : StreamState) (chunks : List (List Nat)) : StreamState :=
  chunks.foldl processChunk st

/-- The query request body handleSubmit sends with fetch. -/
structure QueryRequest where
  query : String
  collection : String
  conversation_id : String
  use_rag : Bool
deriving DecidableEq, Repr

/-- The component state handleSubmit reads and writes: the messages list,
the pending input text, the loading flag and the per-session conversation
id. -/
structure ChatState where
  messages : List Message
  input : String
  loading : Bool
  conversationId : String
deriving DecidableEq, Repr

/-- How one accepted submission ends: the stream is read to exhaustion
after delivering the given chunks, or fetch itself throws before any
chunk, or reading throws after the given chunks were already processed.
The thrown error carries its message text. -/
inductive Outcome where
  | success : List (List Nat) → Outcome
  | failBefore : String → Outcome
  | failMid : List (List Nat) → String → Outcome
deriving Repr

/-- The fresh assistant placeholder appended when the stream opens. -/
def emptyAssistant : Message :=
  { role := "assistant", content := "", sources := [] }

/-- Model of one handleSubmit call, given the collection prop and how the
network behaves.  Returns the final component state and the request sent,
none when the call is the guarded no-op.  Follows the source line by line:
the guard on trimmed input and the loading flag; appending the user
message, clearing the input and raising the loading flag; sending the
request; on a pre-stream throw, the catch appends an error message; on a
normal stream, the assistant placeholder is appended and every chunk is
processed; on a mid-stream throw, the chunks read so far are processed and
the catch then appends a further error message; in every path the loading
flag is lowered at the end. -/
def runSubmit (s : ChatState) (collection : String) (oc : Outcome) :
    ChatState × Option QueryRequest :=
  if jsTrim s.input = "" || s.loading then (s, none)
  else
    let userMessage : Message := { role := "user", content := s.input, sources := [] }
    let afterUser := s.messages ++ [userMessage]
    let req : QueryRequest :=
      { query := s.input, collection := collection,
        conversation_id := s.conversationId, use_rag := true }
    match oc with
    | Outcome.failBefore err =>
      ({ s with
          messages := afterUser ++ [{ role := "assistant", content := "Error: " ++ err, sources := [] }],
          input := "", loading := false }, some req)
    | Outcome.success chunks =>
      let stF := processChunks { rendered := afterUser ++ [emptyAssistant], assistantMessage := emptyAssistant } chunks
      ({ s with messages := stF.rendered, input := "", loading := false }, some req)
    | Outcome.failMid chunks err =>
      let stF := processChunks { rendered := afterUser ++ [emptyAssistant], assistantMessage := emptyAssistant } chunks
      ({ s with
          messages := stF.rendered ++ [{ role := "assistant", content := "Error: " ++ err, sources := [] }],
          input := "", loading := false }, some req)

/-- The stream state right after the assistant placeholder is appended,
for a conversation that starts empty: the placeholder is the only
published message and is the accumulation target. -/
def stEmpty : StreamState :=
  { rendered := [emptyAssistant], assistantMessage := emptyAssistant }

/-- A concrete idle component state used to instantiate theorems. -/
def idleState : ChatState :=
  { messages := [], input := "hello", loading := false, conversationId := "abc123def" }

/- Helper lemmas shared by the claim theorems. -/

theorem decode_step_ascii (n : Nat) (h : n < 0x80) (fuel : Nat) (rest : List Nat) :
    decodeUtf8Bytes (fuel + 1) (n :: rest) = Char.ofNat n :: decodeUtf8Bytes fuel rest := by
  simp only [decodeUtf8Bytes, if_pos h]

theorem decode_step_two (n : Nat) (h1 : 0x80 ≤ n) (h2 : n < 0x800)
    (fuel : Nat) (rest : List Nat) :
    decodeUtf8Bytes (fuel + 1) ((0xC0 + n / 0x40) :: (0x80 + n % 0x40) :: rest)
      = Char.ofNat n :: decodeUtf8Bytes fuel rest := by
  have ha : ¬ (0xC0 + n / 0x40 < 0x80) := by omega
  have hb : ¬ (0xC0 + n / 0x40 < 0xC2) := by omega
  have hc : 0xC0 + n / 0x40 < 0xE0 := by omega
  have hd : isContByte (0x80 + n % 0x40) = true := by
    simp only [isContByte, Bool.and_eq_true, decide_eq_true_eq]
    omega
  simp only [decodeUtf8Bytes, if_neg ha, if_neg hb, if_pos hc, hd, if_pos]
  congr 1
  have : 0xC0 + n / 0x40 - 0xC0 = n / 0x40 := by omega
  rw [this]
  have : 0x80 + n % 0x40 - 0x80 = n % 0x40 := by omega
  rw [this]
  congr 1
  omega

theorem decode_step_three (n : Nat) (h1 : 0x800 ≤ n) (h2 : n < 0x10000)
    (hs : n < 0xD800 ∨ 0xDFFF < n) (fuel : Nat) (rest : List Nat) :
    decodeUtf8Bytes (fuel + 1)
        ((0xE0 + n / 0x1000) :: (0x80 + n / 0x40 % 0x40) :: (0x80 + n % 0x40) :: rest)
      = Char.ofNat n :: decodeUtf8Bytes fuel rest := by
  have ha : ¬ (0xE0 + n / 0x1000 < 0x80) := by omega
  have hb : ¬ (0xE0 + n / 0x1000 < 0xC2) := by omega
  have hc : ¬ (0xE0 + n / 0x1000 < 0xE0) := by omega
  have hd : 0xE0 + n / 0x1000 < 0xF0 := by omega
  have hcond : ((if 0xE0 + n / 0x1000 = 0xE0 then (0xA0 : Nat) else 0x80) ≤ 0x80 + n / 0x40 % 0x40
      && 0x80 + n / 0x40 % 0x40 ≤ (if 0xE0 + n / 0x1000 = 0xED then (0x9F : Nat) else 0xBF)) = true := by
    simp only [Bool.and_eq_true, decide_eq_true_eq]
    constructor
    · split <;> omega
    · split <;> omega
  have he : isContByte (0x80 + n % 0x40) = true := by
    simp only [isContByte, Bool.and_eq_true, decide_eq_true_eq]
    omega
  simp only [decodeUtf8Bytes, if_neg ha, if_neg hb, if_neg hc, if_pos hd, hcond, he, if_pos]
  congr 1
  have e1 : 0xE0 + n / 0x1000 - 0xE0 = n / 0x1000 := by omega
  have e2 : 0x80 + n / 0x40 % 0x40 - 0x80 = n / 0x40 % 0x40 := by omega
  have e3 : 0x80 + n % 0x40 - 0x80 = n % 0x40 := by omega
  rw [e1, e2, e3]
  congr 1
  omega

theorem decode_step_four (n : Nat) (h1 : 0x10000 ≤ n) (h2 : n < 0x110000)
    (fuel : Nat) (rest : List Nat) :
    decodeUtf8Bytes (fuel + 1)
        ((0xF0 + n / 0x40000) :: (0x80 + n / 0x1000 % 0x40)
          :: (0x80 + n / 0x40 % 0x40) :: (0x80 + n % 0x40) :: rest)
      = Char.ofNat n :: decodeUtf8Bytes fuel rest := by
  have ha : ¬ (0xF0 + n / 0x40000 < 0x80) := by omega
  have hb : ¬ (0xF0 + n / 0x40000 < 0xC2) := by omega
  have hc : ¬ (0xF0 + n / 0x40000 < 0xE0) := by omega
  have hd : ¬ (0xF0 + n / 0x40000 < 0xF0) := by omega
  have he : 0xF0 + n / 0x40000 < 0xF5 := by omega
  have hcond : ((if 0xF0 + n / 0x40000 = 0xF0 then (0x90 : Nat) else 0x80) ≤ 0x80 + n / 0x1000 % 0x40
      && 0x80 + n / 0x1000 % 0x40 ≤ (if 0xF0 + n / 0x40000 = 0xF4 then (0x8F : Nat) else 0xBF)) = true := by
    simp only [Bool.and_eq_true, decide_eq_true_eq]
    constructor
    · split <;> omega
    · split <;> omega
  have hf : isContByte (0x80 + n / 0x40 % 0x40) = true := by
    simp only [isContByte, Bool.and_eq_true, decide_eq_true_eq]
    omega
  have hg : isContByte (0x80 + n % 0x40) = true := by
    simp only [isContByte, Bool.and_eq_true, decide_eq_true_eq]
    omega
  simp only [decodeUtf8Bytes, if_neg ha, if_neg hb, if_neg hc, if_neg hd, if_pos he,
    hcond, hf, hg, if_pos]
  congr 1
  have e1 : 0xF0 + n / 0x40000 - 0xF0 = n / 0x40000 := by omega
  have e2 : 0x80 + n / 0x1000 % 0x40 - 0x80 = n / 0x1000 % 0x40 := by omega
  have e3 : 0x80 + n / 0x40 % 0x40 - 0x80 = n / 0x40 % 0x40 := by omega
  have e4 : 0x80 + n % 0x40 - 0x80 = n % 0x40 := by omega
  rw [e1, e2, e3, e4]
  congr 1
  omega

theorem utf8EncodeChar_decode (c : Char) (fuel : Nat) (rest : List Nat) :
    decodeUtf8Bytes (fuel + 1) (utf8EncodeChar c ++ rest)
      = c :: decodeUtf8Bytes fuel rest := by
  have hv : c.toNat < 0xD800 ∨ (0xDFFF < c.toNat ∧ c.toNat < 0x110000) := c.valid
  by_cases h1 : c.toNat < 0x80
  · simp only [utf8EncodeChar, if_pos h1, List.cons_append, List.nil_append,
      decode_step_ascii c.toNat h1, Char.ofNat_toNat]
  · by_cases h2 : c.toNat < 0x800
    · simp only [utf8EncodeChar, if_neg h1, if_pos h2, List.cons_append, List.nil_append,
        decode_step_two c.toNat (by omega) h2, Char.ofNat_toNat]
    · by_cases h3 : c.toNat < 0x10000
      · have hs : c.toNat < 0xD800 ∨ 0xDFFF < c.toNat := by omega
        simp only [utf8EncodeChar, if_neg h1, if_neg h2, if_pos h3, List.cons_append,
          List.nil_append, decode_step_three c.toNat (by omega) h3 hs, Char.ofNat_toNat]
      · simp only [utf8EncodeChar, if_neg h1, if_neg h2, if_neg h3, List.cons_append,
          List.nil_append, decode_step_four c.toNat (by omega) (by omega), Char.ofNat_toNat]

theorem utf8EncodeChar_length_pos (c : Char) : 0 < (utf8EncodeChar c).length := by
  simp only [utf8EncodeChar]
  split <;> try simp
  split <;> try simp
  split <;> simp

theorem utf8EncodeList_decode (cs : List Char) :
    ∀ fuel, (utf8EncodeList cs).length ≤ fuel →
      decodeUtf8Bytes fuel (utf8EncodeList cs) = cs := by
  induction cs with
  | nil =>
    intro fuel _
    cases fuel <;> rfl
  | cons c cs ih =>
    intro fuel hfuel
    have hlen : (utf8EncodeList (c :: cs)).length
        = (utf8EncodeChar c).length + (utf8EncodeList cs).length := by
      simp [utf8EncodeList]
    have hpos := utf8EncodeChar_length_pos c
    cases fuel with
    | zero => omega
    | succ f =>
      have : (utf8EncodeList cs).length ≤ f := by omega
      calc decodeUtf8Bytes (f + 1) (utf8EncodeList (c :: cs))
          = decodeUtf8Bytes (f + 1) (utf8EncodeChar c ++ utf8EncodeList cs) := rfl
        _ = c :: decodeUtf8Bytes f (utf8EncodeList cs) := utf8EncodeChar_decode c f _
        _ = c :: cs := by rw [ih f this]

theorem join_cons_str (c : String) (cs : List String) :
    String.join (c :: cs) = c ++ String.join cs := by
  apply String.ext
  simp [String.data_join]

theorem tokenFold_content (cs : List String) (st : StreamState) :
    ((cs.map StreamEvent.token).foldl applyEvent st).assistantMessage.content
      = st.assistantMessage.content ++ String.join cs := by
  induction cs generalizing st with
  | nil => simp [String.join]
  | cons c cs ih =>
    simp only [List.map_cons, List.foldl_cons, ih, applyEvent, join_cons_str]
    rw [String.append_assoc]

theorem string_mk_toList (s : String) : String.mk s.toList = s := rfl

theorem map_toNat_eq_utf8EncodeList (cs : List Char) (h : ∀ c ∈ cs, c.toNat < 0x80) :
    cs.map Char.toNat = utf8EncodeList cs := by
  induction cs with
  | nil => rfl
  | cons c cs ih =>
    have hc : c.toNat < 0x80 := h c (by simp)
    simp only [List.map_cons, utf8EncodeList, utf8EncodeChar, if_pos hc, List.cons_append,
      List.nil_append, List.cons.injEq, true_and]
    exact ih fun d hd => h d (by simp [hd])

theorem asciiBytes_eq_utf8Encode (u : String) (h : ∀ c ∈ u.toList, c.toNat < 0x80) :
    asciiBytes u = utf8Encode u :=
  map_toNat_eq_utf8EncodeList u.toList h

theorem textDecode_utf8Encode (s : String) : textDecode (utf8Encode s) = s := by
  unfold textDecode utf8Encode
  rw [utf8EncodeList_decode s.toList (utf8EncodeList s.toList).length (le_refl _),
    string_mk_toList]

theorem textDecode_ascii (u : String) (h : ∀ c ∈ u.toList, c.toNat < 0x80) :
    textDecode (asciiBytes u) = u := by
  rw [asciiBytes_eq_utf8Encode u h, textDecode_utf8Encode]

theorem splitLinesAux_ne_nil (a acc : List Char) : splitLinesAux a acc ≠ [] := by
  induction a generalizing acc with
  | nil => simp [splitLinesAux]
  | cons c cs ih =>
    simp only [splitLinesAux]
    split
    · simp
    · exact ih _

theorem splitLinesAux_no_nl (a : List Char) :
    ∀ acc, '\n' ∉ a → splitLinesAux a acc = [String.mk (acc.reverse ++ a)] := by
  induction a with
  | nil => intro acc _; simp [splitLinesAux]
  | cons c cs ih =>
    intro acc hmem
    have hc : ¬ c = '\n' := fun h => hmem (by simp [h])
    simp only [splitLinesAux, if_neg hc]
    rw [ih (c :: acc) (fun h => hmem (by simp [h]))]
    simp

theorem splitLinesAux_pair (a : List Char) :
    ∀ (acc b : List Char), ∃ M : List String,
      splitLinesAux (a ++ ['\n']) acc = M ++ [""]
      ∧ splitLinesAux (a ++ '\n' :: b) acc = M ++ splitLinesAux b [] := by
  induction a with
  | nil =>
    intro acc b
    refine ⟨[String.mk acc.reverse], ?_, ?_⟩ <;> simp [splitLinesAux]
  | cons c cs ih =>
    intro acc b
    by_cases hc : c = '\n'
    · subst hc
      obtain ⟨M, h1, h2⟩ := ih [] b
      exact ⟨String.mk acc.reverse :: M, by simp [splitLinesAux, h1], by simp [splitLinesAux, h2]⟩
    · obtain ⟨M, h1, h2⟩ := ih (c :: acc) b
      exact ⟨M, by simp [splitLinesAux, hc, h1], by simp [splitLinesAux, hc, h2]⟩

theorem processLine_empty (st : StreamState) : processLine st "" = st := rfl

theorem runSubmit_lowers_loading (s : ChatState) (col : String) (oc : Outcome)
    (h : s.loading = false) :
    ((runSubmit s col oc).1).loading = false := by
  by_cases hin : jsTrim s.input = ""
  · simp [runSubmit, hin, h]
  · cases oc <;> simp [runSubmit, hin, h]

theorem runSubmit_accepted (s : ChatState) (col : String) (oc : Outcome)
    (h1 : ¬ jsTrim s.input = "") (h2 : s.loading = false) :
    ((runSubmit s col oc).2).isSome = true := by
  cases oc <;> simp [runSubmit, h1, h2]

/-- Claim C1: folding any finite sequence of token events, in arrival
order, into a stream state whose assistant message content starts empty
yields exactly the concatenation of the token contents, in order. -/
theorem token_events_concat (cs : List String) (st : StreamState)
    (h : st.assistantMessage.content = "") :
    ((cs.map StreamEvent.token).foldl applyEvent st).assistantMessage.content
      = String.join cs := by
  rw [tokenFold_content, h, String.empty_append]

/-- Witness for claim C1: the two tokens Hel and lo of the worked spec
example produce the content Hello. -/
theorem token_events_concat_witness :
    ((["Hel", "lo"].map StreamEvent.token).foldl applyEvent stEmpty).assistantMessage.content
      = String.join ["Hel", "lo"] :=
  token_events_concat ["Hel", "lo"] stEmpty rfl

/-- Claim C5: a sources event fully replaces the sources list, and leaves
the content untouched: after Sources of a list holding a and b followed by
Sources of the singleton c, the sources are exactly the singleton c; and
any sources event leaves the message content unchanged. -/
theorem sources_full_replacement (st : StreamState) (a b c : SourceRef) :
    ((applyEvent (applyEvent st (StreamEvent.sources [a, b]))
        (StreamEvent.sources [c])).assistantMessage.sources = [c])
    ∧ ∀ items : List SourceRef,
        (applyEvent st (StreamEvent.sources items)).assistantMessage.content
          = st.assistantMessage.content :=
  ⟨rfl, fun _ => rfl⟩

/-- Claim C8: an error event overwrites the whole message content with the
word Error, a colon and a space, followed by the error text, whatever the
prior content was. -/
theorem error_event_replaces_content (st : StreamState) (text : String) :
    (applyEvent st (StreamEvent.error text)).assistantMessage.content
      = "Error: " ++ text := rfl

/-- Claim C10: a sources event updates only the local assistant message
and publishes nothing, so the rendered list does not change; the next
token or error event publishes a snapshot that carries the new sources. -/
theorem sources_event_no_publish (st : StreamState) (items : List SourceRef) :
    ((applyEvent st (StreamEvent.sources items)).rendered = st.rendered)
    ∧ ((applyEvent st (StreamEvent.sources items)).assistantMessage
        = { st.assistantMessage with sources := items })
    ∧ (∀ c : String,
        (applyEvent (applyEvent st (StreamEvent.sources items)) (StreamEvent.token c)).rendered
          = replaceLast st.rendered
              { role := st.assistantMessage.role,
                content := st.assistantMessage.content ++ c, sources := items })
    ∧ (∀ e : String,
        (applyEvent (applyEvent st (StreamEvent.sources items)) (StreamEvent.error e)).rendered
          = replaceLast st.rendered
              { role := st.assistantMessage.role,
                content := "Error: " ++ e, sources := items }) :=
  ⟨rfl, rfl, fun _ => rfl, fun _ => rfl⟩

/-- Claim C4: a submit call with empty or whitespace-only input, or made
while a submission is already active, is a rejected no-op: the state is
returned unchanged and no request is sent, for every possible network
outcome. -/
theorem submit_rejected_noop (s : ChatState) (col : String) (oc : Outcome)
    (h : jsTrim s.input = "" ∨ s.loading = true) :
    runSubmit s col oc = (s, none) := by
  rcases h with h | h <;> simp [runSubmit, h]

/-- Witness for claim C4: with a submission active, a new submit with the
concrete state leaves it unchanged and sends nothing. -/
theorem submit_rejected_noop_witness :
    runSubmit { idleState with loading := true } "default" (Outcome.success [])
      = ({ idleState with loading := true }, none) :=
  submit_rejected_noop { idleState with loading := true } "default"
    (Outcome.success []) (Or.inr rfl)

/-- Claim C6: a line that yields no event, sitting between two lines that
yield token events with contents a and b, is skipped and accumulation
continues: the content ends as a followed by b.  Lines with an unparsable
payload or an unrecognized discriminator are exactly lines that yield no
event. -/
theorem malformed_line_skipped (st : StreamState) (la L lb a b : String)
    (ha : parseEvent la = some (StreamEvent.token a))
    (hL : parseEvent L = none)
    (hb : parseEvent lb = some (StreamEvent.token b))
    (h0 : st.assistantMessage.content = "") :
    (([la, L, lb]).foldl processLine st).assistantMessage.content = a ++ b := by
  simp only [List.foldl_cons, List.foldl_nil, processLine, ha, hL, hb]
  simp [applyEvent, h0, String.empty_append]

/-- Witness for claim C6: a token line carrying A, then a data line whose
payload is not JSON, then a token line carrying B, give content AB. -/
theorem malformed_line_skipped_witness :
    ((["data: \x7b\"type\":\"token\",\"content\":\"A\"\x7d",
       "data: not-json",
       "data: \x7b\"type\":\"token\",\"content\":\"B\"\x7d"]).foldl
        processLine stEmpty).assistantMessage.content = "A" ++ "B" :=
  malformed_line_skipped stEmpty
    "data: \x7b\"type\":\"token\",\"content\":\"A\"\x7d"
    "data: not-json"
    "data: \x7b\"type\":\"token\",\"content\":\"B\"\x7d"
    "A" "B" rfl rfl rfl rfl

/-- Claim C7: a submission started from an unlocked state ends with the
loading flag lowered on every outcome, stream exhaustion as well as a
failure before or during the stream; and a later submit on the resulting
state with any nonblank input is accepted, so the system is never left
permanently locked. -/
theorem loading_always_cleared (s : ChatState) (col : String) (oc : Outcome)
    (h : s.loading = false) :
    (((runSubmit s col oc).1).loading = false)
    ∧ ∀ (t : String) (oc₂ : Outcome), ¬ jsTrim t = "" →
        ((runSubmit { (runSubmit s col oc).1 with input := t } col oc₂).2).isSome = true := by
  refine ⟨runSubmit_lowers_loading s col oc h, fun t oc₂ ht => ?_⟩
  exact runSubmit_accepted _ col oc₂ ht (runSubmit_lowers_loading s col oc h)

/-- Witness for claim C7: after a concrete submission that fails in the
middle of the stream, the loading flag is lowered and a new submit with
fresh input is accepted. -/
theorem loading_always_cleared_witness :
    ((((runSubmit idleState "default" (Outcome.failMid [[0x41]] "boom")).1).loading = false))
    ∧ ((runSubmit
          { (runSubmit idleState "default" (Outcome.failMid [[0x41]] "boom")).1
              with input := "again" }
          "default" (Outcome.success [])).2).isSome = true := by
  have h := loading_always_cleared idleState "default"
    (Outcome.failMid [[0x41]] "boom") rfl
  exact ⟨h.1, h.2 "again" (Outcome.success []) (by decide)⟩

/-- Claim C9 counterexample: a line that contains the data prefix with a
junk character before it yields no event, although the remainder starting
at the first occurrence of the prefix is a well-formed token record; so a
line containing the prefix does not yield an event regardless of what
precedes it, refuting the claim as stated. -/
theorem data_prefix_must_lead_cex :
    (parseEvent "x data: \x7b\"type\":\"token\",\"content\":\"A\"\x7d" = none)
    ∧ (strSliceFrom "x data: \x7b\"type\":\"token\",\"content\":\"A\"\x7d" 2
        = "data: \x7b\"type\":\"token\",\"content\":\"A\"\x7d")
    ∧ (parseEvent "data: \x7b\"type\":\"token\",\"content\":\"A\"\x7d"
        = some (StreamEvent.token "A")) :=
  ⟨rfl, rfl, rfl⟩

/-- Claim C9 as amended: the parser recognizes a line only when the data
prefix is at its very start, everything after the six prefix characters
being the payload; a line that does not begin with the prefix, even one
that carries the prefix later, yields no event and leaves the state
unchanged. -/
theorem data_prefix_must_lead (st : StreamState) (line : String)
    (h : strStartsWith line "data: " = false) :
    (parseEvent line = none) ∧ (processLine st line = st) := by
  constructor
  · simp [parseEvent, h]
  · simp [processLine, parseEvent, h]

/-- Witness for the amended claim C9: the junk-prefixed line of the
counterexample indeed yields no event and changes nothing. -/
theorem data_prefix_must_lead_witness :
    (parseEvent "x data: \x7b\"type\":\"token\",\"content\":\"A\"\x7d" = none)
    ∧ (processLine stEmpty "x data: \x7b\"type\":\"token\",\"content\":\"A\"\x7d" = stEmpty) :=
  data_prefix_must_lead stEmpty
    "x data: \x7b\"type\":\"token\",\"content\":\"A\"\x7d" rfl

/-- Claim C2 counterexample: the read loop keeps no pending buffer, so a
token record split across two chunk deliveries is processed as two partial
lines, both skipped, and the token is lost: the content stays empty, while
the same bytes delivered as one chunk yield the token content Hello; so
the text after the last newline of the first chunk was processed at once
rather than held and prepended to the next chunk. -/
theorem split_record_is_dropped :
    ((processChunks stEmpty
        [asciiBytes "data: \x7b\"type\":\"token\",\"content\":\"Hel",
         asciiBytes "lo\"\x7d\n"]).assistantMessage.content = "")
    ∧ ((processChunks stEmpty
        [asciiBytes "data: \x7b\"type\":\"token\",\"content\":\"Hel"
          ++ asciiBytes "lo\"\x7d\n"]).assistantMessage.content = "Hello") :=
  ⟨rfl, rfl⟩

/-- Claim C3 counterexample: every decode call is a complete decode with
no carried state, so the two bytes of the character é delivered in two
separate chunks each decode to a replacement character, not to the single
correct character, while the two bytes in one delivery decode correctly. -/
theorem split_char_is_garbled :
    (textDecode [0xC3] ++ textDecode [0xA9] = String.mk [replChar, replChar])
    ∧ (textDecode [0xC3] ++ textDecode [0xA9] ≠ "é")
    ∧ (textDecode [0xC3, 0xA9] = "é") := by
  refine ⟨rfl, by decide, rfl⟩

/-- Claim C2 as amended: the code holds no pending buffer; an ASCII chunk
with no newline is processed immediately as one line of its own chunk, and
only a chunk boundary placed right after a newline is harmless, the text
before the boundary being complete lines: delivering the text after a
newline in a separate chunk is then the same as delivering it in the same
chunk. -/
theorem no_pending_buffer (st : StreamState) (u v : String)
    (hu : ∀ c ∈ u.toList, c.toNat < 0x80) (hv : ∀ c ∈ v.toList, c.toNat < 0x80) :
    (('\n' ∉ u.toList) → processChunk st (asciiBytes u) = processLine st u)
    ∧ processChunks st [asciiBytes (u ++ "\n"), asciiBytes v]
        = processChunks st [asciiBytes (u ++ "\n" ++ v)] := by
  have hnl : ('\n' : Char).toNat < 0x80 := by decide
  have hul : (u ++ "\n").toList = u.toList ++ ['\n'] := by
    simp [String.toList, String.data_append]
  have huvl : (u ++ "\n" ++ v).toList = u.toList ++ '\n' :: v.toList := by
    simp [String.toList, String.data_append]
  have hu2 : ∀ c ∈ (u ++ "\n").toList, c.toNat < 0x80 := by
    intro c hc
    rw [hul] at hc
    rcases List.mem_append.1 hc with h | h
    · exact hu c h
    · simp at h; subst h; exact hnl
  have hu3 : ∀ c ∈ (u ++ "\n" ++ v).toList, c.toNat < 0x80 := by
    intro c hc
    rw [huvl] at hc
    rcases (by simpa using hc : c ∈ u.toList ∨ c = '\n' ∨ c ∈ v.toList) with h | h | h
    · exact hu c h
    · subst h; exact hnl
    · exact hv c h
  constructor
  · intro hno
    unfold processChunk
    rw [textDecode_ascii u hu]
    unfold splitLines
    rw [splitLinesAux_no_nl u.toList [] hno]
    simp [string_mk_toList]
  · obtain ⟨M, h1, h2⟩ := splitLinesAux_pair u.toList [] v.toList
    unfold processChunks
    simp only [List.foldl_cons, List.foldl_nil]
    unfold processChunk
    rw [textDecode_ascii _ hu2, textDecode_ascii v hv, textDecode_ascii _ hu3]
    unfold splitLines
    rw [hul, huvl, h1, h2, List.foldl_append, List.foldl_append]
    simp [processLine_empty]

/-- Witness for the amended claim C2: with concrete one-letter ASCII
chunks, a newline-free chunk is one immediately processed line, and a
boundary after the newline does not change the outcome. -/
theorem no_pending_buffer_witness :
    (processChunk stEmpty (asciiBytes "a") = processLine stEmpty "a")
    ∧ processChunks stEmpty [asciiBytes ("a" ++ "\n"), asciiBytes "b"]
        = processChunks stEmpty [asciiBytes ("a" ++ "\n" ++ "b")] := by
  have h := no_pending_buffer stEmpty "a" "b" (by decide) (by decide)
  exact ⟨h.1 (by decide), h.2⟩

/-- Claim C3 as amended: a decode call on the complete UTF-8 encoding of
any text yields exactly that text, every multi-byte character included, so
characters whose bytes arrive within one chunk are decoded correctly; the
counterexample shows the bytes of one character split across two
deliveries decode to replacement characters instead. -/
theorem utf8_whole_chunk_roundtrip (s : String) : textDecode (utf8Encode s) = s :=
  textDecode_utf8Encode s

end PatGPT
